import Mathlib

/-!
Verification of the PDF-paper-summarization service (Express/Node).

The development shallowly embeds the server's pure logic over `List Char`
(JS strings).  External capabilities (the PDF extractor, the generative
model transport, the random id/token source, the password hash) enter as
explicit inputs; their outcomes are data, mirroring how the JS code only
ever observes their results.  `JSON.parse` is modelled by an executable
strict JSON parser (`jsonParse`); a parse exception is `none`.
-/

/-- A JS string, as its character list. -/
abbrev Str := List Char

/-- A parsed JSON value, as produced by `JSON.parse`.  Numbers keep their
source lexeme: the claims below never compare numerically distinct lexemes,
so the float conversion performed by JS is not modelled. -/
inductive Json where
  | null
  | bool (b : Bool)
  | num (lexeme : Str)
  | str (s : Str)
  | arr (elems : List Json)
  | obj (members : List (Str × Json))

/-- The backquote character, written by code to avoid a literal. -/
def backquote : Char := Char.ofNat 96

/-- The apostrophe character. -/
def apostrophe : Char := Char.ofNat 39

/-- JSON whitespace, as accepted between tokens by `JSON.parse`. -/
def isJsonWs (c : Char) : Bool :=
  c = ' ' || c = '\t' || c = '\n' || c = '\r'

/-- Whitespace for JS `String.prototype.trim` and the regex class `\s`
(the WhiteSpace and LineTerminator productions). -/
def isJsWs (c : Char) : Bool :=
  c = ' ' || c = '\t' || c = '\n' || c = '\r' ||
  c = Char.ofNat 0x0B || c = Char.ofNat 0x0C || c = Char.ofNat 0xA0 ||
  c = Char.ofNat 0x1680 ||
  (Char.ofNat 0x2000 ≤ c && c ≤ Char.ofNat 0x200A) ||
  c = Char.ofNat 0x2028 || c = Char.ofNat 0x2029 || c = Char.ofNat 0x202F ||
  c = Char.ofNat 0x205F || c = Char.ofNat 0x3000 || c = Char.ofNat 0xFEFF

/-- JS `text.trim()`: drop leading and trailing whitespace. -/
def jsTrim (cs : Str) : Str :=
  ((cs.dropWhile isJsWs).reverse.dropWhile isJsWs).reverse

/-- Skip JSON inter-token whitespace. -/
def skipWs (cs : Str) : Str := cs.dropWhile isJsonWs

/-- Value of one hex digit, on the character's code point. -/
def hexVal (c : Char) : Option Nat :=
  let n := c.toNat
  if 48 ≤ n && n ≤ 57 then some (n - 48)
  else if 97 ≤ n && n ≤ 102 then some (n - 87)
  else if 65 ≤ n && n ≤ 70 then some (n - 55)
  else none

/-- One JSON string escape, after the backslash.  A `\u` escape denoting a
UTF-16 surrogate half is mapped to `Char.ofNat`'s fallback; the claims never
exercise surrogate escapes. -/
def parseEsc : Str → Option (Char × Str)
  | [] => none
  | c :: r =>
    if c = '"' then some ('"', r)
    else if c = '\\' then some ('\\', r)
    else if c = '/' then some ('/', r)
    else if c = 'b' then some (Char.ofNat 8, r)
    else if c = 'f' then some (Char.ofNat 12, r)
    else if c = 'n' then some ('\n', r)
    else if c = 'r' then some ('\r', r)
    else if c = 't' then some ('\t', r)
    else if c = 'u' then
      match r with
      | h1 :: h2 :: h3 :: h4 :: r2 =>
        match hexVal h1, hexVal h2, hexVal h3, hexVal h4 with
        | some a, some b, some cv, some d =>
          some (Char.ofNat (((a * 16 + b) * 16 + cv) * 16 + d), r2)
        | _, _, _, _ => none
      | _ => none
    else none

/-- Body of a JSON string, after the opening quote: characters up to the
closing quote, decoding escapes, rejecting raw control characters. -/
def parseStrRest : Nat → Str → Option (Str × Str)
  | _, [] => none
  | f, c :: r =>
    if c = '"' then some ([], r)
    else
      match f with
      | 0 => none
      | f0 + 1 =>
        if c = '\\' then
          match parseEsc r with
          | some (e, r1) =>
            match parseStrRest f0 r1 with
            | some (s, r2) => some (e :: s, r2)
            | none => none
          | none => none
        else if c.toNat < 32 then none
        else
          match parseStrRest f0 r with
          | some (s, r2) => some (c :: s, r2)
          | none => none

/-- Split a leading minus sign off a number literal. -/
def splitSign (cs : Str) : Str × Str :=
  match cs with
  | c :: r => if c = '-' then (['-'], r) else ([], cs)
  | [] => ([], cs)

/-- Split a leading exponent sign off the exponent digits. -/
def splitExpSign (cs : Str) : Str × Str :=
  match cs with
  | c :: r => if c = '+' || c = '-' then ([c], r) else ([], cs)
  | [] => ([], cs)

/-- Exponent digits of a JSON number literal. -/
def parseExpDigits (lex pre : Str) (cs : Str) : Option (Json × Str) :=
  let sgr := splitExpSign cs
  let ds := sgr.2.takeWhile Char.isDigit
  let r2 := sgr.2.dropWhile Char.isDigit
  if ds = [] then none else some (Json.num (lex ++ pre ++ sgr.1 ++ ds), r2)

/-- Optional exponent of a JSON number literal. -/
def parseExpPart (lex : Str) (cs : Str) : Option (Json × Str) :=
  match cs with
  | c :: r => if c = 'e' || c = 'E' then parseExpDigits lex [c] r
              else some (Json.num lex, cs)
  | [] => some (Json.num lex, cs)

/-- Fraction part of a JSON number literal. -/
def parseFracPart (lex : Str) (cs : Str) : Option (Json × Str) :=
  match cs with
  | c :: r2 =>
    if c = '.' then
      let fp := r2.takeWhile Char.isDigit
      let r3 := r2.dropWhile Char.isDigit
      if fp = [] then none else parseExpPart (lex ++ '.' :: fp) r3
    else parseExpPart lex cs
  | [] => parseExpPart lex cs

/-- A JSON number literal: optional minus, integer part without leading
zeros, optional fraction, optional exponent. -/
def parseNum (cs : Str) : Option (Json × Str) :=
  let sgr := splitSign cs
  let ip := sgr.2.takeWhile Char.isDigit
  let r1 := sgr.2.dropWhile Char.isDigit
  if ip = [] then none
  else if 1 < ip.length && ip.head? = some '0' then none
  else parseFracPart (sgr.1 ++ ip) r1

/-- Object member update with JS semantics: a repeated key keeps its first
position and takes the later value. -/
def setKey : List (Str × Json) → Str → Json → List (Str × Json)
  | [], k, v => [(k, v)]
  | (k1, v1) :: rest, k, v =>
    if k1 = k then (k1, v) :: rest else (k1, v1) :: setKey rest k v

mutual

/-- One JSON value: dispatch on the first non-whitespace character. -/
def parseVal : Nat → Str → Option (Json × Str)
  | 0, _ => none
  | f + 1, cs =>
    match skipWs cs with
    | [] => none
    | c :: rest =>
      if c = '{' then
        match parseObjBody f rest with
        | some (ms, r) => some (Json.obj ms, r)
        | none => none
      else if c = '[' then
        match parseArrBody f rest with
        | some (vs, r) => some (Json.arr vs, r)
        | none => none
      else if c = '"' then
        match parseStrRest (f + 1) rest with
        | some (s, r) => some (Json.str s, r)
        | none => none
      else if c = 't' then
        match rest with
        | 'r' :: 'u' :: 'e' :: r => some (Json.bool true, r)
        | _ => none
      else if c = 'f' then
        match rest with
        | 'a' :: 'l' :: 's' :: 'e' :: r => some (Json.bool false, r)
        | _ => none
      else if c = 'n' then
        match rest with
        | 'u' :: 'l' :: 'l' :: r => some (Json.null, r)
        | _ => none
      else parseNum (c :: rest)

/-- Object body, after the opening brace. -/
def parseObjBody : Nat → Str → Option (List (Str × Json) × Str)
  | 0, _ => none
  | f + 1, cs =>
    match skipWs cs with
    | [] => none
    | c :: r => if c = '}' then some ([], r) else parseMembers f [] cs

/-- One or more `key : value` members, ending at the closing brace. -/
def parseMembers : Nat → List (Str × Json) → Str → Option (List (Str × Json) × Str)
  | 0, _, _ => none
  | f + 1, acc, cs =>
    match skipWs cs with
    | [] => none
    | c :: r1 =>
      if c = '"' then
        match parseStrRest (f + 1) r1 with
        | some (k, r2) =>
          match skipWs r2 with
          | [] => none
          | c2 :: r3 =>
            if c2 = ':' then
              match parseVal f r3 with
              | some (v, r4) =>
                match skipWs r4 with
                | [] => none
                | c3 :: r5 =>
                  if c3 = ',' then parseMembers f (setKey acc k v) r5
                  else if c3 = '}' then some (setKey acc k v, r5)
                  else none
              | none => none
            else none
        | none => none
      else none

/-- Array body, after the opening bracket. -/
def parseArrBody : Nat → Str → Option (List Json × Str)
  | 0, _ => none
  | f + 1, cs =>
    match skipWs cs with
    | [] => none
    | c :: r => if c = ']' then some ([], r) else parseElems f cs

/-- One or more array elements, ending at the closing bracket. -/
def parseElems : Nat → Str → Option (List Json × Str)
  | 0, _ => none
  | f + 1, cs =>
    match parseVal f cs with
    | some (v, r1) =>
      match skipWs r1 with
      | [] => none
      | c :: r2 =>
        if c = ',' then
          match parseElems f r2 with
          | some (vs, r) => some (v :: vs, r)
          | none => none
        else if c = ']' then some ([v], r2)
        else none
    | none => none

end

/-- Model of `JSON.parse`: parse a value, then require only whitespace to
remain.  `none` stands for the thrown `SyntaxError`.  The fuel bound
exceeds the recursion depth possible for the input length (every three
consecutive fuel decrements consume at least one character). -/
def jsonParse (cs : Str) : Option Json :=
  match parseVal (5 * cs.length + 10) cs with
  | some (v, rest) => if skipWs rest = [] then some v else none
  | none => none

/-- ASCII letter or digit, the regex class `[a-zA-Z0-9]`. -/
def isAsciiAlnum (c : Char) : Bool :=
  ('a' ≤ c && c ≤ 'z') || ('A' ≤ c && c ≤ 'Z') || ('0' ≤ c && c ≤ '9')

/-- The replacement `.replace(/^```[a-zA-Z0-9]*\s*\/i, '')` of
`stripCodeFences`: an opening fence, an optional language tag, and any
following whitespace are removed when present. -/
def dropFenceOpen (cs : Str) : Str :=
  if cs.take 3 = [backquote, backquote, backquote] then
    ((cs.drop 3).dropWhile isAsciiAlnum).dropWhile isJsWs
  else cs

/-- The replacement `.replace(/```$/, '')` of `stripCodeFences`: a closing
fence at the very end of the string is removed when present. -/
def dropFenceClose (cs : Str) : Str :=
  if cs.reverse.take 3 = [backquote, backquote, backquote] then
    (cs.reverse.drop 3).reverse
  else cs

/-- Model of `stripCodeFences` from the source: trim, strip an opening fence with
optional language tag, strip a closing fence, trim again. -/
def stripCodeFences (cs : Str) : Str :=
  jsTrim (dropFenceClose (dropFenceOpen (jsTrim cs)))

/-- Model of `normalizeQuotes` from the source: map each Unicode smart-quote variant
to its ASCII counterpart. -/
def normalizeQuotes (cs : Str) : Str :=
  cs.map (fun c =>
    if c = Char.ofNat 0x2018 || c = Char.ofNat 0x2019 || c = Char.ofNat 0x201A ||
       c = Char.ofNat 0x201B || c = Char.ofNat 0x2032 || c = Char.ofNat 0x2035 then
      apostrophe
    else if c = Char.ofNat 0x201C || c = Char.ofNat 0x201D || c = Char.ofNat 0x201E ||
            c = Char.ofNat 0x201F || c = Char.ofNat 0x2033 || c = Char.ofNat 0x2036 then
      '"'
    else c)

/-- Case-insensitive match of the literal label `json` at the start of the
text, the regex `^json` with the `i` flag. -/
def hasJsonLabel (cs : Str) : Bool :=
  match cs with
  | a :: b :: c :: d :: _ =>
    a.toLower = 'j' && b.toLower = 's' && c.toLower = 'o' && d.toLower = 'n'
  | _ => false

/-- Model of `stripJsonPrefix` from the source: `text.replace(/^json\s*\/i, '').trim()`,
removing a leading literal `json` label and following whitespace. -/
def stripJsonLabel (cs : Str) : Str :=
  jsTrim (if hasJsonLabel cs then (cs.drop 4).dropWhile isJsWs else cs)

/-- Index of the first occurrence of a character. -/
def idxOfChar (cs : Str) (c : Char) : Option Nat :=
  cs.findIdx? (fun x => x = c)

/-- Index of the last occurrence of a character. -/
def lastIdxOfChar (cs : Str) (c : Char) : Option Nat :=
  (cs.reverse.findIdx? (fun x => x = c)).map (fun i => cs.length - 1 - i)

/-- Model of `extractJsonBlock` from the source: the substring from the first
opening brace to the last closing brace, `null` when there is no such
non-empty span. -/
def extractJsonBlock (cs : Str) : Option Str :=
  match idxOfChar cs (Char.ofNat 0x7B), lastIdxOfChar cs (Char.ofNat 0x7D) with
  | some s, some e => if e ≤ s then none else some ((cs.drop s).take (e + 1 - s))
  | _, _ => none

/-- The candidate loop of `coerceModelJson`: skip a `null` or empty
candidate, return the first candidate `JSON.parse` accepts. -/
def coerceLoop : List (Option Str) → Option Json
  | [] => none
  | none :: rest => coerceLoop rest
  | some c :: rest =>
    if c = [] then coerceLoop rest
    else
      match jsonParse c with
      | some v => some v
      | none => coerceLoop rest

/-- Model of `coerceModelJson` from the source: empty input short-circuits; otherwise
four candidates are tried in a fixed order.  JS returns the parsed value
itself (so a parsed `null` and the final failure `null` coincide there);
the model keeps them apart as `some Json.null` versus `none`, which the
caller's truthiness test cannot distinguish either. -/
def coerceModelJson (raw : Str) : Option Json :=
  if raw = [] then none
  else
    let cleaned := stripCodeFences raw
    let normalized := normalizeQuotes cleaned
    let withoutLabel := stripJsonLabel normalized
    coerceLoop [some normalized, some withoutLabel,
      extractJsonBlock normalized, extractJsonBlock withoutLabel]

/-- Attempt a strict parse of an optional candidate: used to state that
skipping absent or empty candidates equals parsing them. -/
def tryCand (c : Option Str) : Option Json :=
  match c with
  | none => none
  | some s => jsonParse s

/-- First defined value of a list of attempts. -/
def firstSome : List (Option Json) → Option Json
  | [] => none
  | some v :: _ => some v
  | none :: rest => firstSome rest

/-- Zero test of a number lexeme: true exactly when every mantissa digit is
zero (the exponent cannot change that).  Gradual float underflow in JS is
not modelled; no claim involves it. -/
def numLexIsZero (lex : Str) : Bool :=
  (lex.takeWhile (fun c => c ≠ 'e' && c ≠ 'E')).all
    (fun c => c = '0' || c = '.' || c = '-')

/-- JS truthiness of a parsed JSON value, as tested by `if (parsed)`. -/
def jsTruthy : Json → Bool
  | .null => false
  | .bool b => b
  | .num lex => !numLexIsZero lex
  | .str s => !s.isEmpty
  | .arr _ => true
  | .obj _ => true

/-- The fixed `parsing_note` explanatory string. -/
def parsingNote : Str :=
  ("Model returned non-JSON text; included raw response instead.").toList

/-- The `SummaryFailure` returned when no candidate parses (or the parsed
value is falsy): the raw reply plus the fixed note. -/
def unparsedObj (raw : Str) : Json :=
  Json.obj [(("unparsed_summary").toList, Json.str raw),
            (("parsing_note").toList, Json.str parsingNote)]

/-- The `SummaryFailure` returned without any model call when no model
credential is configured. -/
def warningObj : Json :=
  Json.obj [(("warning").toList,
    Json.str (("Gemini API key is not configured. No summary available.").toList))]

/-- The tail of `summarizeForReview` after the model reply arrives: trim the
reply, coerce it, keep a truthy parse, otherwise fail over to the
`unparsed_summary` object. -/
def summarizeStep (reply : Str) : Json :=
  let raw := jsTrim reply
  match coerceModelJson raw with
  | some v => if jsTruthy v then v else unparsedObj raw
  | none => unparsedObj raw

/-- Model of `summarizeForReview` from the source over the transport outcome: with no
configured model it short-circuits to the warning object; a transport
rejection propagates to the caller; a reply goes through `summarizeStep`.
The prompt construction is not observable through the outcome and is left
inside the oracle. -/
def summarizeForReview (configured : Bool) (callOutcome : Except Str Str) :
    Except Str Json :=
  if configured then
    match callOutcome with
    | .ok t => .ok (summarizeStep t)
    | .error e => .error e
  else .ok warningObj

/-- Collapse runs of dashes to one dash, the dash-run replacement of
`sanitizeFileName`. -/
def collapseDashes : Str → Str
  | [] => []
  | '-' :: '-' :: rest => collapseDashes ('-' :: rest)
  | c :: rest => c :: collapseDashes rest
termination_by cs => cs.length

/-- Characters kept by `sanitizeFileName`, the class `[a-z0-9-_.]` with the
`i` flag. -/
def isFileNameKept (c : Char) : Bool :=
  isAsciiAlnum c || c = '-' || c = '_' || c = '.'

/-- Model of `sanitizeFileName` from the source: replace disallowed characters by
dashes, collapse dash runs, strip one leading and one trailing dash,
lower-case, and fall back to `paper` when empty. -/
def sanitizeFileName (cs : Str) : Str :=
  let s1 := cs.map (fun c => if isFileNameKept c then c else '-')
  let s2 := collapseDashes s1
  let s3 := match s2 with
    | '-' :: r => r
    | r => r
  let s4 := match s3.reverse with
    | '-' :: r => r.reverse
    | _ => s3
  let s5 := s4.map Char.toLower
  if s5 = [] then ("paper").toList else s5

/-- Model of `path.parse(name).name`: the base name after the last path separator,
without its last extension (a dot at position zero starts no extension). -/
def pathBaseName (cs : Str) : Str :=
  let base := (cs.reverse.takeWhile (fun c => c ≠ '/')).reverse
  match lastIdxOfChar base '.' with
  | some i => if 0 < i then base.take i else base
  | none => base

/-- One uploaded file as the analyze loop observes it: its name, the
outcome `extractTextFromPdf` would produce for its bytes, the outcome of
the model transport for its text, and the id drawn from the id source. -/
structure FileJob where
  id : Str
  originalname : Str
  extract : Except Str (Str × Option Nat)
  reply : Except Str Str

/-- One entry of the `results` array built by `POST /api/analyze`.  Fields
the JS code leaves unset on a branch are `none`. -/
structure AnalysisResult where
  id : Str
  originalName : Str
  status : Option Str
  error : Option Str
  pages : Option Nat
  textContent : Option Str
  textFileName : Option Str
  characters : Option Nat
  summary : Option Json

/-- A failed entry, as pushed by the two catch branches and the empty-text
branch: only id, name, status and error are set. -/
def failedResult (id name msg : Str) : AnalysisResult :=
  { id := id, originalName := name, status := some (("failed").toList),
    error := some msg, pages := none, textContent := none,
    textFileName := none, characters := none, summary := none }

/-- The per-file body of the analyze loop: extraction error or empty text
yields a failed entry, a summarization transport error yields a failed
entry, otherwise a success entry carrying the summary. -/
def processFile (configured : Bool) (f : FileJob) : AnalysisResult :=
  match f.extract with
  | .error msg =>
    failedResult f.id f.originalname
      (if msg = [] then ("Failed to parse PDF").toList else msg)
  | .ok (text, pages) =>
    let trimmed := jsTrim text
    if trimmed = [] then
      failedResult f.id f.originalname (("No textual content detected in PDF.").toList)
    else
      match summarizeForReview configured f.reply with
      | .error e =>
        failedResult f.id f.originalname
          (if e = [] then ("Failed to parse PDF").toList else e)
      | .ok s =>
        { id := f.id, originalName := f.originalname, status := none,
          error := none, pages := pages, textContent := some trimmed,
          textFileName := some (sanitizeFileName (pathBaseName f.originalname)
            ++ (".txt").toList),
          characters := some trimmed.length, summary := some s }

/-- The `for (const file of req.files)` loop with its `results.push`. -/
def analyzeLoop (configured : Bool) : List FileJob → List AnalysisResult → List AnalysisResult
  | [], acc => acc
  | f :: rest, acc => analyzeLoop configured rest (acc ++ [processFile configured f])

/-- The results list assembled by one analyze request. -/
def analyze (configured : Bool) (jobs : List FileJob) : List AnalysisResult :=
  analyzeLoop configured jobs []

/-- The `POST /api/analyze` handler body after authentication: an empty
upload is rejected with a 400, otherwise the loop runs to completion. -/
def analyzeRoute (configured : Bool) (jobs : List FileJob) :
    Except (Nat × Str) (List AnalysisResult) :=
  match jobs with
  | [] => .error (400, ("Please upload at least one PDF file.").toList)
  | _ => .ok (analyze configured jobs)

/-- Shape of the warning `SummaryFailure`: an object whose single member is
a string named `warning`. -/
def isWarningShape : Json → Bool
  | .obj [(k, .str _)] => k = ("warning").toList
  | _ => false

/-- Shape of the unparsed `SummaryFailure`: an object whose two members are
strings named `unparsed_summary` and `parsing_note`. -/
def isUnparsedShape : Json → Bool
  | .obj [(k1, .str _), (k2, .str _)] =>
    k1 = ("unparsed_summary").toList && k2 = ("parsing_note").toList
  | _ => false

/-- Lookup of an object member by name. -/
def lookupJ : List (Str × Json) → Str → Option Json
  | [], _ => none
  | (k, v) :: rest, key => if k = key then some v else lookupJ rest key

/-- A JSON string value. -/
def isStrJ : Option Json → Bool
  | some (.str _) => true
  | _ => false

/-- A JSON array of strings. -/
def isStrArrJ : Option Json → Bool
  | some (.arr l) => l.all (fun v => match v with | .str _ => true | _ => false)
  | _ => false

/-- Conformance to the `SummaryObject` schema: an object carrying the five
documented fields with their documented types. -/
def isSummaryObjectShape : Json → Bool
  | .obj ms =>
    isStrJ (lookupJ ms (("concise_summary").toList)) &&
    isStrArrJ (lookupJ ms (("key_points").toList)) &&
    isStrJ (lookupJ ms (("novelty").toList)) &&
    isStrJ (lookupJ ms (("limitations").toList)) &&
    isStrArrJ (lookupJ ms (("next_questions").toList))
  | _ => false

/-- State classifier: extraction (or per-file) failure. -/
def stFailed (r : AnalysisResult) : Bool :=
  r.status = some (("failed").toList)

/-- State classifier: warning summary. -/
def stWarning (r : AnalysisResult) : Bool :=
  match r.summary with
  | some s => isWarningShape s
  | none => false

/-- State classifier: unparsed summary. -/
def stUnparsed (r : AnalysisResult) : Bool :=
  match r.summary with
  | some s => isUnparsedShape s
  | none => false

/-- State classifier: schema summary, any summary value of neither failure
shape. -/
def stSchema (r : AnalysisResult) : Bool :=
  match r.summary with
  | some s => !isWarningShape s && !isUnparsedShape s
  | none => false

/-- Model of `normalizeEmail` from the source: trim, then lower-case. -/
def normalizeEmail (email : Str) : Str :=
  (jsTrim email).map Char.toLower

/-- A record held by the in-memory `userStore` map: full user records (with
a password hash) are stored under the normalized email, session records
(without one) under the random token. -/
structure MemUser where
  id : Str
  name : Str
  email : Str
  passwordHash : Option Str
deriving DecidableEq

/-- The in-memory `userStore` of the serverless variant: one `Map` keyed by
both normalized emails and session tokens. -/
abbrev MemStore := List (Str × MemUser)

/-- Lookup, JS `Map.get`. -/
def storeGet : MemStore → Str → Option MemUser
  | [], _ => none
  | (k, v) :: rest, key => if k = key then some v else storeGet rest key

/-- Update, JS `Map.set`: overwrite in place, or append a new binding. -/
def storeSet : MemStore → Str → MemUser → MemStore
  | [], k, v => [(k, v)]
  | (k1, v1) :: rest, k, v =>
    if k1 = k then (k1, v) :: rest else (k1, v1) :: storeSet rest k v

/-- Removal, JS `Map.delete`. -/
def storeDel : MemStore → Str → MemStore
  | [], _ => []
  | (k, v) :: rest, key =>
    if k = key then storeDel rest key else (k, v) :: storeDel rest key

/-- A response of the session routes: a user payload with an optional token
and a redirect, or an error status with its message. -/
inductive AuthResp where
  | ok (user : MemUser) (token : Option Str) (redirect : Str)
  | err (code : Nat) (msg : Str)
deriving DecidableEq

/-- The fixed login-failure message. -/
def invalidLoginMsg : Str := ("Invalid email or password.").toList

/-- Model of `requireAuth` of the in-memory variant: demand a `Bearer ` header and a
token bound in `userStore`; the bound record becomes the request identity. -/
def requireAuthMem (st : MemStore) (authHeader : Option Str) : Option MemUser :=
  match authHeader with
  | none => none
  | some h =>
    if h.take 7 = ("Bearer ").toList then storeGet st (h.drop 7) else none

/-- Model of `POST /sessions/signup` of the in-memory variant.  `uuid` and `token`
stand for the random id and random token drawn by the handler. -/
def signupMem (hash : Str → Str) (uuid token : Str) (st : MemStore)
    (name email password : Str) : MemStore × AuthResp :=
  if email = [] || password = [] || password.length < 6 then
    (st, .err 400 (("Provide a valid email and a password with at least 6 characters.").toList))
  else
    let ne := normalizeEmail email
    if (storeGet st ne).isSome then
      (st, .err 409 (("Email already registered. Please sign in.").toList))
    else
      let nm := if jsTrim name = [] then ("Guest").toList else jsTrim name
      let user : MemUser := ⟨uuid, nm, ne, some (hash password)⟩
      let st2 := storeSet (storeSet st ne user) token ⟨uuid, nm, ne, none⟩
      (st2, .ok ⟨uuid, nm, ne, none⟩ (some token) (("/app.html").toList))

/-- Model of `POST /sessions/login` of the in-memory variant. -/
def loginMem (hash : Str → Str) (token : Str) (st : MemStore)
    (email password : Str) : MemStore × AuthResp :=
  let ne := normalizeEmail email
  match storeGet st ne with
  | none => (st, .err 401 invalidLoginMsg)
  | some u =>
    if u.passwordHash = some (hash password) then
      let sess : MemUser := ⟨u.id, u.name, u.email, none⟩
      (storeSet st token sess, .ok sess (some token) (("/app.html").toList))
    else (st, .err 401 invalidLoginMsg)

/-- Model of `POST /sessions/logout` of the in-memory variant: it answers success and
leaves `userStore` untouched — no token is invalidated. -/
def logoutMem (st : MemStore) : MemStore := st

/-- A row of the `users` table created by `src/config/db.js`: columns
`id`, `name`, `email` (unique) and `password_hash` as the login handler
reads them; the `created_at` column the table also carries is never read
by the server and is omitted. -/
structure DbUser where
  id : Str
  name : Str
  email : Str
  password_hash : Str
deriving DecidableEq

/-- Contents of the `users` table of `src/config/db.js`, keyed by its
unique `email` column (signup only ever inserts normalized emails). -/
abbrev DbStore := List (Str × DbUser)

/-- Model of `db.getUserByEmail` from `src/config/db.js`: the statement
`SELECT * FROM users WHERE email = ?` resolves the matching row, or
nothing when the email is unregistered. -/
def getUserByEmail : DbStore → Str → Option DbUser
  | [], _ => none
  | (k, v) :: rest, key => if k = key then some v else getUserByEmail rest key

/-- Model of `POST /sessions/login` of the session-backed variant: both an unknown
email and a hash mismatch take the same 401 branch. -/
def loginDb (hash : Str → Str) (db : DbStore) (email password : Str) : AuthResp :=
  let ne := normalizeEmail email
  match getUserByEmail db ne with
  | none => .err 401 invalidLoginMsg
  | some u =>
    if u.password_hash = hash password then
      .ok ⟨u.id, u.name, u.email, none⟩ none (("/app.html").toList)
    else .err 401 invalidLoginMsg

/-- Whether a login attempt fails against the session-backed variant:
unknown email, or known email with a mismatching hash. -/
def dbLoginFails (hash : Str → Str) (db : DbStore) (email password : Str) : Bool :=
  match getUserByEmail db (normalizeEmail email) with
  | none => true
  | some u => !(u.password_hash = hash password)

/-- Whether a login attempt fails against the in-memory variant. -/
def memLoginFails (hash : Str → Str) (st : MemStore) (email password : Str) : Bool :=
  match storeGet st (normalizeEmail email) with
  | none => true
  | some u => !(u.passwordHash = some (hash password))

/-- The session store of the session-backed variant: cookie session ids
bound to the session's user record. -/
abbrev SessStore := List (Str × MemUser)

/-- Model of `requireAuth` of the session-backed variant: the request authenticates
exactly when its session id is bound to a user. -/
def requireAuthCookie (st : SessStore) (sid : Option Str) : Option MemUser :=
  match sid with
  | none => none
  | some s => storeGet st s

/-- Model of `POST /sessions/logout` of the session-backed variant:
`req.session.destroy` removes the session from the store. -/
def logoutCookie (st : SessStore) (sid : Str) : SessStore :=
  storeDel st sid

/-! Helper lemmas. -/

/-- Dropping over a fully-satisfying block continues into the tail. -/
theorem dropWhile_append_all {p : Char → Bool} {xs : Str} (ys : Str)
    (h : ∀ x ∈ xs, p x = true) :
    List.dropWhile p (xs ++ ys) = List.dropWhile p ys := by
  induction xs with
  | nil => rfl
  | cons a l ih =>
    have ha : p a = true := h a (by simp)
    simp only [List.cons_append, List.dropWhile_cons, ha, if_pos]
    exact ih (fun x hx => h x (by simp [hx]))

/-- A head the predicate rejects stops `dropWhile` at once. -/
theorem dropWhile_cons_neg {p : Char → Bool} {x : Char} (xs : Str)
    (h : p x = false) : List.dropWhile p (x :: xs) = x :: xs := by
  simp [List.dropWhile_cons, h]

/-- Suffix composition: whatever remains of a remainder remains of the
whole. -/
theorem suffix_trans {a b c : Str} (h1 : ∃ p, a = p ++ b) (h2 : ∃ p, b = p ++ c) :
    ∃ p, a = p ++ c := by
  obtain ⟨p1, rfl⟩ := h1
  obtain ⟨p2, rfl⟩ := h2
  exact ⟨p1 ++ p2, by simp⟩

/-- Skipping whitespace leaves a suffix. -/
theorem skipWs_suffix (cs : Str) : ∃ p, cs = p ++ skipWs cs :=
  ⟨cs.takeWhile isJsonWs, (List.takeWhile_append_dropWhile isJsonWs cs).symm⟩


theorem suffix_of_skipWs {cs r : Str} {x : Char} (h : skipWs cs = x :: r) :
    ∃ p, cs = p ++ r := by
  obtain ⟨p, hp⟩ := skipWs_suffix cs
  exact ⟨p ++ [x], by rw [hp, h]; simp⟩

theorem parseEsc_suffix (cs : Str) (c : Char) (r : Str)
    (h : parseEsc cs = some (c, r)) : ∃ p, cs = p ++ r := by
  match cs with
  | [] => exact absurd h (by simp [parseEsc])
  | c0 :: r0 =>
    simp only [parseEsc] at h
    split_ifs at h with h1 h2 h3 h4 h5 h6 h7 h8 h9
    all_goals first
      | (injection h with hp; injection hp with _ h2x; subst h2x; exact ⟨[c0], rfl⟩)
      | skip
    -- remaining: the u-escape branch
    split at h
    · split at h
      · injection h with hp; injection hp with _ h2x; subst h2x
        exact ⟨[_, _, _, _, _], rfl⟩
      · exact absurd h (by simp)
    · exact absurd h (by simp)

theorem parseStrRest_suffix : ∀ (f : Nat) (cs s r), parseStrRest f cs = some (s, r) →
    ∃ p, cs = p ++ r := by
  intro f
  induction f with
  | zero =>
    intro cs s r h
    match cs with
    | [] => exact absurd h (by simp [parseStrRest])
    | c :: r0 =>
      simp only [parseStrRest] at h
      split_ifs at h with h1
      injection h with hp; injection hp with _ h2; subst h2; exact ⟨[c], rfl⟩
  | succ f0 ih =>
    intro cs s r h
    match cs with
    | [] => exact absurd h (by simp [parseStrRest])
    | c :: r0 =>
      simp only [parseStrRest] at h
      split_ifs at h with h1 h2 h3
      · injection h with hp; injection hp with _ h2x; subst h2x; exact ⟨[c], rfl⟩
      · split at h
        · rename_i e r1 he
          split at h
          · rename_i s2 r2 hs
            injection h with hp; injection hp with _ h2x; subst h2x
            exact suffix_trans ⟨[c], rfl⟩
              (suffix_trans (parseEsc_suffix _ _ _ he) (ih _ _ _ hs))
          · exact absurd h (by simp)
        · exact absurd h (by simp)
      · split at h
        · rename_i s2 r2 hs
          injection h with hp; injection hp with _ h2x; subst h2x
          exact suffix_trans ⟨[c], rfl⟩ (ih _ _ _ hs)
        · exact absurd h (by simp)

theorem splitExpSign_suffix (cs : Str) : ∃ p, cs = p ++ (splitExpSign cs).2 := by
  match cs with
  | [] => exact ⟨[], rfl⟩
  | c :: r =>
    simp only [splitExpSign]
    split_ifs with h
    · exact ⟨[c], rfl⟩
    · exact ⟨[], rfl⟩

theorem splitSign_suffix (cs : Str) : ∃ p, cs = p ++ (splitSign cs).2 := by
  match cs with
  | [] => exact ⟨[], rfl⟩
  | c :: r =>
    simp only [splitSign]
    split_ifs with h
    · exact ⟨[c], rfl⟩
    · exact ⟨[], rfl⟩

theorem dropWhile_suffix_ex (p : Char → Bool) (cs : Str) :
    ∃ q, cs = q ++ cs.dropWhile p :=
  ⟨cs.takeWhile p, (List.takeWhile_append_dropWhile p cs).symm⟩

theorem parseExpDigits_suffix (lex pre cs : Str) (v : Json) (r : Str)
    (h : parseExpDigits lex pre cs = some (v, r)) : ∃ p, cs = p ++ r := by
  simp only [parseExpDigits] at h
  split_ifs at h with h1
  injection h with hp; injection hp with _ h2; subst h2
  exact suffix_trans (splitExpSign_suffix cs) (dropWhile_suffix_ex _ _)

theorem parseExpPart_suffix (lex cs : Str) (v : Json) (r : Str)
    (h : parseExpPart lex cs = some (v, r)) : ∃ p, cs = p ++ r := by
  match cs with
  | [] => injection h with hp; injection hp with _ h2; subst h2; exact ⟨[], rfl⟩
  | c :: r0 =>
    simp only [parseExpPart] at h
    split_ifs at h with h1
    · exact suffix_trans ⟨[c], rfl⟩ (parseExpDigits_suffix _ _ _ _ _ h)
    · injection h with hp; injection hp with _ h2; subst h2; exact ⟨[], rfl⟩

theorem parseFracPart_suffix (lex cs : Str) (v : Json) (r : Str)
    (h : parseFracPart lex cs = some (v, r)) : ∃ p, cs = p ++ r := by
  match cs with
  | [] => exact parseExpPart_suffix _ _ _ _ h
  | c :: r0 =>
    simp only [parseFracPart] at h
    split_ifs at h with h1 h2
    · exact suffix_trans (suffix_trans ⟨[c], rfl⟩ (dropWhile_suffix_ex _ _))
        (parseExpPart_suffix _ _ _ _ h)
    · exact parseExpPart_suffix _ _ _ _ h

theorem parseNum_suffix (cs : Str) (v : Json) (r : Str)
    (h : parseNum cs = some (v, r)) : ∃ p, cs = p ++ r := by
  simp only [parseNum] at h
  split_ifs at h with h1 h2
  exact suffix_trans (suffix_trans (splitSign_suffix cs) (dropWhile_suffix_ex _ _))
    (parseFracPart_suffix _ _ _ _ h)

theorem parse_suffix_val (f : Nat)
    (ihO : ∀ cs ms r, parseObjBody f cs = some (ms, r) → ∃ p, cs = p ++ r)
    (ihA : ∀ cs vs r, parseArrBody f cs = some (vs, r) → ∃ p, cs = p ++ r) :
    ∀ cs v r, parseVal (f + 1) cs = some (v, r) → ∃ p, cs = p ++ r := by
  intro cs v r h
  simp only [parseVal] at h
  cases hsk : skipWs cs with
  | nil => rw [hsk] at h; exact absurd h (by simp)
  | cons c rest =>
    rw [hsk] at h
    dsimp only at h
    have hcs : ∃ p, cs = p ++ rest := suffix_of_skipWs hsk
    have hcs2 : ∃ p, cs = p ++ (c :: rest) :=
      ⟨cs.takeWhile isJsonWs, by
        rw [← hsk]; exact (List.takeWhile_append_dropWhile isJsonWs cs).symm⟩
    split_ifs at h with h1 h2 h3 h4 h5 h6
    · split at h
      · rename_i ms r2 hob
        injection h with hp; injection hp with _ h2x; subst h2x
        exact suffix_trans hcs (ihO _ _ _ hob)
      · exact absurd h (by simp)
    · split at h
      · rename_i vs r2 hab
        injection h with hp; injection hp with _ h2x; subst h2x
        exact suffix_trans hcs (ihA _ _ _ hab)
      · exact absurd h (by simp)
    · split at h
      · rename_i s2 r2 hsr
        injection h with hp; injection hp with _ h2x; subst h2x
        exact suffix_trans hcs (parseStrRest_suffix _ _ _ _ hsr)
      · exact absurd h (by simp)
    · split at h
      · rename_i r2
        injection h with hp; injection hp with _ h2x; subst h2x
        exact suffix_trans hcs ⟨[_, _, _], rfl⟩
      · exact absurd h (by simp)
    · split at h
      · rename_i r2
        injection h with hp; injection hp with _ h2x; subst h2x
        exact suffix_trans hcs ⟨[_, _, _, _], rfl⟩
      · exact absurd h (by simp)
    · split at h
      · rename_i r2
        injection h with hp; injection hp with _ h2x; subst h2x
        exact suffix_trans hcs ⟨[_, _, _], rfl⟩
      · exact absurd h (by simp)
    · exact suffix_trans hcs2 (parseNum_suffix _ _ _ h)

theorem parse_suffix_obj (f : Nat)
    (ihM : ∀ acc cs ms r, parseMembers f acc cs = some (ms, r) → ∃ p, cs = p ++ r) :
    ∀ cs ms r, parseObjBody (f + 1) cs = some (ms, r) → ∃ p, cs = p ++ r := by
  intro cs ms r h
  simp only [parseObjBody] at h
  cases hsk : skipWs cs with
  | nil => rw [hsk] at h; exact absurd h (by simp)
  | cons c rest =>
    rw [hsk] at h
    dsimp only at h
    split_ifs at h with h1
    · injection h with hp; injection hp with _ h2x; subst h2x
      exact suffix_of_skipWs hsk
    · exact ihM _ _ _ _ h

theorem parse_suffix_members (f : Nat)
    (ihV : ∀ cs v r, parseVal f cs = some (v, r) → ∃ p, cs = p ++ r)
    (ihM : ∀ acc cs ms r, parseMembers f acc cs = some (ms, r) → ∃ p, cs = p ++ r) :
    ∀ acc cs ms r, parseMembers (f + 1) acc cs = some (ms, r) → ∃ p, cs = p ++ r := by
  intro acc cs ms r h
  simp only [parseMembers] at h
  cases hsk : skipWs cs with
  | nil => rw [hsk] at h; exact absurd h (by simp)
  | cons c r1 =>
    rw [hsk] at h
    dsimp only at h
    have hcs : ∃ p, cs = p ++ r1 := suffix_of_skipWs hsk
    split_ifs at h with h1
    split at h
    next k r2 hkey =>
      have h12 : ∃ p, cs = p ++ r2 :=
        suffix_trans hcs (parseStrRest_suffix _ _ _ _ hkey)
      cases hs2 : skipWs r2 with
      | nil => rw [hs2] at h; exact absurd h (by simp)
      | cons c2 r3 =>
        rw [hs2] at h
        dsimp only at h
        have h23 : ∃ p, cs = p ++ r3 :=
          suffix_trans h12 (suffix_of_skipWs hs2)
        split_ifs at h with hc2
        split at h
        next v r4 hval =>
          have h34 : ∃ p, cs = p ++ r4 := suffix_trans h23 (ihV _ _ _ hval)
          cases hs4 : skipWs r4 with
          | nil => rw [hs4] at h; exact absurd h (by simp)
          | cons c3 r5 =>
            rw [hs4] at h
            dsimp only at h
            have h45 : ∃ p, cs = p ++ r5 :=
              suffix_trans h34 (suffix_of_skipWs hs4)
            split_ifs at h with hc3 hc4
            · exact suffix_trans h45 (ihM _ _ _ _ h)
            · injection h with hp; injection hp with _ h2x; subst h2x
              exact h45
        next => exact absurd h (by simp)
    next => exact absurd h (by simp)

theorem parse_suffix_arr (f : Nat)
    (ihE : ∀ cs vs r, parseElems f cs = some (vs, r) → ∃ p, cs = p ++ r) :
    ∀ cs vs r, parseArrBody (f + 1) cs = some (vs, r) → ∃ p, cs = p ++ r := by
  intro cs vs r h
  simp only [parseArrBody] at h
  cases hsk : skipWs cs with
  | nil => rw [hsk] at h; exact absurd h (by simp)
  | cons c rest =>
    rw [hsk] at h
    dsimp only at h
    split_ifs at h with h1
    · injection h with hp; injection hp with _ h2x; subst h2x
      exact suffix_of_skipWs hsk
    · exact ihE _ _ _ h

theorem parse_suffix_elems (f : Nat)
    (ihV : ∀ cs v r, parseVal f cs = some (v, r) → ∃ p, cs = p ++ r)
    (ihE : ∀ cs vs r, parseElems f cs = some (vs, r) → ∃ p, cs = p ++ r) :
    ∀ cs vs r, parseElems (f + 1) cs = some (vs, r) → ∃ p, cs = p ++ r := by
  intro cs vs r h
  simp only [parseElems] at h
  split at h
  next v r1 hval =>
    have h01 : ∃ p, cs = p ++ r1 := ihV _ _ _ hval
    cases hs1 : skipWs r1 with
    | nil => rw [hs1] at h; exact absurd h (by simp)
    | cons c r2 =>
      rw [hs1] at h
      dsimp only at h
      have h02 : ∃ p, cs = p ++ r2 := suffix_trans h01 (suffix_of_skipWs hs1)
      split_ifs at h with hc1 hc2
      · split at h
        next vs2 r3 helems =>
          injection h with hp; injection hp with _ h2x; subst h2x
          exact suffix_trans h02 (ihE _ _ _ helems)
        next => exact absurd h (by simp)
      · injection h with hp; injection hp with _ h2x; subst h2x
        exact h02
  next => exact absurd h (by simp)

theorem parse_suffix (f : Nat) :
    (∀ cs v r, parseVal f cs = some (v, r) → ∃ p, cs = p ++ r) ∧
    (∀ cs ms r, parseObjBody f cs = some (ms, r) → ∃ p, cs = p ++ r) ∧
    (∀ acc cs ms r, parseMembers f acc cs = some (ms, r) → ∃ p, cs = p ++ r) ∧
    (∀ cs vs r, parseArrBody f cs = some (vs, r) → ∃ p, cs = p ++ r) ∧
    (∀ cs vs r, parseElems f cs = some (vs, r) → ∃ p, cs = p ++ r) := by
  induction f with
  | zero =>
    refine ⟨?_, ?_, ?_, ?_, ?_⟩ <;> intro cs <;> intros <;>
      simp_all [parseVal, parseObjBody, parseMembers, parseArrBody, parseElems]
  | succ f ih =>
    obtain ⟨ihV, ihO, ihM, ihA, ihE⟩ := ih
    exact ⟨parse_suffix_val f ihO ihA, parse_suffix_obj f ihM,
      parse_suffix_members f ihV ihM, parse_suffix_arr f ihE,
      parse_suffix_elems f ihV ihE⟩

theorem parseMembers_close (f : Nat) : ∀ acc cs ms r,
    parseMembers f acc cs = some (ms, r) → ∃ p, cs = p ++ '}' :: r := by
  induction f with
  | zero => intro acc cs ms r h; exact absurd h (by simp [parseMembers])
  | succ f ih =>
    intro acc cs ms r h
    simp only [parseMembers] at h
    cases hsk : skipWs cs with
    | nil => rw [hsk] at h; exact absurd h (by simp)
    | cons c r1 =>
      rw [hsk] at h
      dsimp only at h
      have hcs : ∃ p, cs = p ++ r1 := suffix_of_skipWs hsk
      split_ifs at h with h1
      split at h
      next k r2 hkey =>
        have h12 : ∃ p, cs = p ++ r2 :=
          suffix_trans hcs (parseStrRest_suffix _ _ _ _ hkey)
        cases hs2 : skipWs r2 with
        | nil => rw [hs2] at h; exact absurd h (by simp)
        | cons c2 r3 =>
          rw [hs2] at h
          dsimp only at h
          have h23 : ∃ p, cs = p ++ r3 :=
            suffix_trans h12 (suffix_of_skipWs hs2)
          split_ifs at h with hc2
          split at h
          next v r4 hval =>
            have h34 : ∃ p, cs = p ++ r4 :=
              suffix_trans h23 ((parse_suffix f).1 _ _ _ hval)
            cases hs4 : skipWs r4 with
            | nil => rw [hs4] at h; exact absurd h (by simp)
            | cons c3 r5 =>
              rw [hs4] at h
              dsimp only at h
              split_ifs at h with hc3 hc4
              · -- comma: recurse
                have h45 : ∃ p, cs = p ++ r5 :=
                  suffix_trans h34 (suffix_of_skipWs hs4)
                exact suffix_trans h45 (ih _ _ _ _ h)
              · -- closing brace return site
                injection h with hp; injection hp with _ h2x
                subst h2x; subst hc4
                exact suffix_trans h34 ⟨r4.takeWhile isJsonWs, by
                  rw [← hs4]
                  exact (List.takeWhile_append_dropWhile isJsonWs r4).symm⟩
          next => exact absurd h (by simp)
      next => exact absurd h (by simp)

theorem parseObjBody_close (f : Nat) : ∀ cs ms r,
    parseObjBody f cs = some (ms, r) → ∃ p, cs = p ++ '}' :: r := by
  intro cs ms r h
  match f with
  | 0 => exact absurd h (by simp [parseObjBody])
  | f0 + 1 =>
    simp only [parseObjBody] at h
    cases hsk : skipWs cs with
    | nil => rw [hsk] at h; exact absurd h (by simp)
    | cons c rest =>
      rw [hsk] at h
      dsimp only at h
      split_ifs at h with h1
      · injection h with hp; injection hp with _ h2x; subst h2x
        subst h1
        exact ⟨cs.takeWhile isJsonWs, by
          rw [← hsk]
          exact (List.takeWhile_append_dropWhile isJsonWs cs).symm⟩
      · exact parseMembers_close f0 _ _ _ _ h

theorem parseExpDigits_shape (lex pre cs : Str) (v : Json) (r : Str)
    (h : parseExpDigits lex pre cs = some (v, r)) : ∃ l, v = Json.num l := by
  simp only [parseExpDigits] at h
  split_ifs at h with h1
  injection h with hp; injection hp with h1x _; subst h1x; exact ⟨_, rfl⟩

theorem parseExpPart_shape (lex cs : Str) (v : Json) (r : Str)
    (h : parseExpPart lex cs = some (v, r)) : ∃ l, v = Json.num l := by
  match cs with
  | [] => injection h with hp; injection hp with h1x _; subst h1x; exact ⟨_, rfl⟩
  | c :: r0 =>
    simp only [parseExpPart] at h
    split_ifs at h with h1
    · exact parseExpDigits_shape _ _ _ _ _ h
    · injection h with hp; injection hp with h1x _; subst h1x; exact ⟨_, rfl⟩

theorem parseFracPart_shape (lex cs : Str) (v : Json) (r : Str)
    (h : parseFracPart lex cs = some (v, r)) : ∃ l, v = Json.num l := by
  match cs with
  | [] =>
    simp only [parseFracPart] at h
    exact parseExpPart_shape _ _ _ _ h
  | c :: r0 =>
    simp only [parseFracPart] at h
    split_ifs at h with h1 h2
    · exact parseExpPart_shape _ _ _ _ h
    · exact parseExpPart_shape _ _ _ _ h

theorem parseNum_shape (cs : Str) (v : Json) (r : Str)
    (h : parseNum cs = some (v, r)) : ∃ l, v = Json.num l := by
  simp only [parseNum] at h
  split_ifs at h with h1 h2
  exact parseFracPart_shape _ _ _ _ h

theorem parseVal_obj_structure (f : Nat) (cs : Str) (ms : List (Str × Json)) (r : Str)
    (h : parseVal f cs = some (Json.obj ms, r)) :
    ∃ f0 rest, f = f0 + 1 ∧ skipWs cs = '{' :: rest ∧
      parseObjBody f0 rest = some (ms, r) := by
  match f with
  | 0 => exact absurd h (by simp [parseVal])
  | f0 + 1 =>
    simp only [parseVal] at h
    cases hsk : skipWs cs with
    | nil => rw [hsk] at h; exact absurd h (by simp)
    | cons c rest =>
      rw [hsk] at h
      dsimp only at h
      split_ifs at h with h1 h2 h3 h4 h5 h6
      · split at h
        next ms2 r2 hob =>
          injection h with hp; injection hp with h1x h2x
          injection h1x with h1y
          subst h1y; subst h2x; subst h1
          exact ⟨f0, rest, rfl, rfl, hob⟩
        next => exact absurd h (by simp)
      · split at h
        next vs r2 hab => exact absurd h (by intro hc; injection hc with hp; injection hp with h1x _; exact Json.noConfusion h1x)
        next => exact absurd h (by simp)
      · split at h
        next s2 r2 hsr => exact absurd h (by intro hc; injection hc with hp; injection hp with h1x _; exact Json.noConfusion h1x)
        next => exact absurd h (by simp)
      · split at h
        next r2 => exact absurd h (by intro hc; injection hc with hp; injection hp with h1x _; exact Json.noConfusion h1x)
        next => exact absurd h (by simp)
      · split at h
        next r2 => exact absurd h (by intro hc; injection hc with hp; injection hp with h1x _; exact Json.noConfusion h1x)
        next => exact absurd h (by simp)
      · split at h
        next r2 => exact absurd h (by intro hc; injection hc with hp; injection hp with h1x _; exact Json.noConfusion h1x)
        next => exact absurd h (by simp)
      · obtain ⟨l, hl⟩ := parseNum_shape _ _ _ h
        exact absurd hl (by simp)

theorem jsonParse_obj_structure (j : Str) (ms : List (Str × Json))
    (h : jsonParse j = some (Json.obj ms)) :
    ∃ w mid t, j = w ++ '{' :: (mid ++ '}' :: t) ∧
      (∀ c ∈ w, isJsonWs c = true) ∧ (∀ c ∈ t, isJsonWs c = true) := by
  unfold jsonParse at h
  split at h
  next v rest hpv =>
    split_ifs at h with htr
    injection h with h1x
    subst h1x
    obtain ⟨f0, rest0, hf, hsk, hob⟩ := parseVal_obj_structure _ _ _ _ hpv
    obtain ⟨mid, hmid⟩ := parseObjBody_close f0 _ _ _ hob
    refine ⟨j.takeWhile isJsonWs, mid, rest, ?_, ?_, ?_⟩
    · have hj : j = j.takeWhile isJsonWs ++ skipWs j :=
        (List.takeWhile_append_dropWhile isJsonWs j).symm
      conv_lhs => rw [hj]
      rw [hsk, hmid]
    · intro c hc
      exact List.mem_takeWhile_imp hc
    · intro c hc
      exact List.dropWhile_eq_nil_iff.mp htr c hc
  next => exact absurd h (by simp)

theorem jsonWs_jsWs (c : Char) (h : isJsonWs c = true) : isJsWs c = true := by
  simp only [isJsonWs, Bool.or_eq_true, decide_eq_true_eq] at h
  rcases h with ((h | h) | h) | h <;> subst h <;> decide

theorem all_jsWs_of_jsonWs {l : Str} (h : ∀ c ∈ l, isJsonWs c = true) :
    ∀ c ∈ l, isJsWs c = true :=
  fun c hc => jsonWs_jsWs c (h c hc)

theorem jsTrim_shape (w mid t : Str) (hw : ∀ c ∈ w, isJsWs c = true)
    (ht : ∀ c ∈ t, isJsWs c = true) :
    jsTrim (w ++ '{' :: (mid ++ '}' :: t)) = '{' :: (mid ++ ['}']) := by
  unfold jsTrim
  rw [dropWhile_append_all _ hw]
  rw [dropWhile_cons_neg _ (by decide)]
  have hrev : ('{' :: (mid ++ '}' :: t)).reverse
      = t.reverse ++ ('}' :: (mid.reverse ++ ['{'])) := by
    simp
  rw [hrev]
  rw [dropWhile_append_all _ (fun c hc => ht c (by simpa using hc))]
  rw [dropWhile_cons_neg _ (by decide)]
  simp

theorem dropFenceOpen_brace (mid : Str) :
    dropFenceOpen ('{' :: mid) = '{' :: mid := by
  unfold dropFenceOpen
  rw [if_neg]
  intro hc
  rw [List.take_succ_cons] at hc
  injection hc with h1 _
  exact absurd h1 (by decide)

theorem dropFenceClose_brace (mid : Str) :
    dropFenceClose (mid ++ ['}']) = mid ++ ['}'] := by
  unfold dropFenceClose
  rw [if_neg]
  intro hc
  rw [List.reverse_append] at hc
  simp only [List.reverse_cons, List.reverse_nil, List.nil_append,
    List.singleton_append, List.take_succ_cons] at hc
  injection hc with h1 _
  exact absurd h1 (by decide)

theorem stripCodeFences_shape (w mid t : Str) (hw : ∀ c ∈ w, isJsWs c = true)
    (ht : ∀ c ∈ t, isJsWs c = true) :
    stripCodeFences (w ++ '{' :: (mid ++ '}' :: t)) = '{' :: (mid ++ ['}']) := by
  unfold stripCodeFences
  rw [jsTrim_shape w mid t hw ht]
  rw [show ('{' :: (mid ++ ['}'])) = '{' :: (mid ++ ['}']) from rfl]
  rw [dropFenceOpen_brace]
  rw [show ('{' :: (mid ++ ['}'])) = ('{' :: mid) ++ ['}'] by simp]
  rw [dropFenceClose_brace]
  rw [show (('{' :: mid) ++ ['}']) = [] ++ '{' :: (mid ++ '}' :: []) by simp]
  exact jsTrim_shape [] mid [] (by simp) (by simp)

theorem jsTrim_eq_self {cs : Str} (h1 : cs.dropWhile isJsWs = cs)
    (h2 : cs.reverse.dropWhile isJsWs = cs.reverse) : jsTrim cs = cs := by
  unfold jsTrim
  rw [h1, h2, List.reverse_reverse]

theorem stripCodeFences_fenced (w mid t : Str) (hw : ∀ c ∈ w, isJsWs c = true)
    (ht : ∀ c ∈ t, isJsWs c = true) :
    stripCodeFences (("```json\n").toList ++ (w ++ '{' :: (mid ++ '}' :: t))
        ++ ("\n```").toList) = '{' :: (mid ++ ['}']) := by
  have hfull : ("```json\n").toList ++ (w ++ '{' :: (mid ++ '}' :: t))
      ++ ("\n```").toList
      = backquote :: backquote :: backquote :: 'j' :: 's' :: 'o' :: 'n' :: '\n'
        :: (w ++ '{' :: (mid ++ '}' :: (t ++ ['\n', backquote, backquote, backquote]))) := by
    have hpre : ("```json\n").toList
        = [backquote, backquote, backquote, 'j', 's', 'o', 'n', '\n'] := by decide
    have hsuf : ("\n```").toList = ['\n', backquote, backquote, backquote] := by decide
    rw [hpre, hsuf]
    simp
  rw [hfull]
  unfold stripCodeFences
  have htrim1 : jsTrim (backquote :: backquote :: backquote :: 'j' :: 's' :: 'o' :: 'n' :: '\n'
        :: (w ++ '{' :: (mid ++ '}' :: (t ++ ['\n', backquote, backquote, backquote]))))
      = backquote :: backquote :: backquote :: 'j' :: 's' :: 'o' :: 'n' :: '\n'
        :: (w ++ '{' :: (mid ++ '}' :: (t ++ ['\n', backquote, backquote, backquote]))) := by
    refine jsTrim_eq_self (dropWhile_cons_neg _ (by decide)) ?_
    have hrev : (backquote :: backquote :: backquote :: 'j' :: 's' :: 'o' :: 'n' :: '\n'
          :: (w ++ '{' :: (mid ++ '}' :: (t ++ ['\n', backquote, backquote, backquote])))).reverse
        = backquote :: backquote :: backquote :: '\n'
          :: (t.reverse ++ '}' :: (mid.reverse ++ '{'
            :: (w.reverse ++ ['\n', 'n', 'o', 's', 'j', backquote, backquote, backquote]))) := by
      simp
    rw [hrev]
    exact dropWhile_cons_neg _ (by decide)
  rw [htrim1]
  have hopen : dropFenceOpen (backquote :: backquote :: backquote :: 'j' :: 's' :: 'o' :: 'n' :: '\n'
        :: (w ++ '{' :: (mid ++ '}' :: (t ++ ['\n', backquote, backquote, backquote]))))
      = '{' :: (mid ++ '}' :: (t ++ ['\n', backquote, backquote, backquote])) := by
    unfold dropFenceOpen
    rw [if_pos (by simp [List.take_succ_cons])]
    simp only [List.drop_succ_cons, List.drop_zero]
    rw [show List.dropWhile isAsciiAlnum
        ('j' :: 's' :: 'o' :: 'n' :: '\n'
          :: (w ++ '{' :: (mid ++ '}' :: (t ++ ['\n', backquote, backquote, backquote]))))
        = '\n' :: (w ++ '{' :: (mid ++ '}' :: (t ++ ['\n', backquote, backquote, backquote]))) by
      simp only [List.dropWhile_cons]
      rw [if_pos (by decide), if_pos (by decide), if_pos (by decide),
        if_pos (by decide), if_neg (by decide)]]
    rw [List.dropWhile_cons, if_pos (by decide)]
    rw [dropWhile_append_all _ hw]
    exact dropWhile_cons_neg _ (by decide)
  rw [hopen]
  have hclose : dropFenceClose ('{' :: (mid ++ '}' :: (t ++ ['\n', backquote, backquote, backquote])))
      = '{' :: (mid ++ '}' :: (t ++ ['\n'])) := by
    unfold dropFenceClose
    have hrev2 : ('{' :: (mid ++ '}' :: (t ++ ['\n', backquote, backquote, backquote]))).reverse
        = backquote :: backquote :: backquote :: '\n'
          :: (t.reverse ++ '}' :: (mid.reverse ++ ['{'])) := by
      simp
    rw [hrev2]
    rw [if_pos (by simp [List.take_succ_cons])]
    simp only [List.drop_succ_cons, List.drop_zero]
    simp
  rw [hclose]
  rw [show '{' :: (mid ++ '}' :: (t ++ ['\n'])) = [] ++ '{' :: (mid ++ '}' :: (t ++ ['\n']))
    from rfl]
  refine jsTrim_shape [] mid (t ++ ['\n']) (by simp) ?_
  intro c hc
  rcases List.mem_append.mp hc with hc1 | hc2
  · exact ht c hc1
  · simp only [List.mem_singleton] at hc2
    subst hc2
    decide

theorem coerce_congr (r1 r2 : Str) (h1 : r1 ≠ []) (h2 : r2 ≠ [])
    (h : stripCodeFences r1 = stripCodeFences r2) :
    coerceModelJson r1 = coerceModelJson r2 := by
  unfold coerceModelJson
  rw [if_neg h1, if_neg h2, h]

theorem summaryShape_obj (v : Json) (h : isSummaryObjectShape v = true) :
    ∃ ms, v = Json.obj ms := by
  cases v <;> first
    | exact ⟨_, rfl⟩
    | exact absurd h (by simp [isSummaryObjectShape])

/-- Claim C6: for every valid JSON object text conforming to the
SummaryObject schema, the fenced reply (wrapped in a markdown code fence
with a `json` language tag) coerces to exactly the same value as the
unfenced reply. -/
theorem fenced_reply_coerces_identically (j : Str) (v : Json)
    (hp : jsonParse j = some v) (hs : isSummaryObjectShape v = true) :
    coerceModelJson (("```json\n").toList ++ j ++ ("\n```").toList)
      = coerceModelJson j := by
  obtain ⟨ms, rfl⟩ := summaryShape_obj v hs
  obtain ⟨w, mid, t, hj, hw, ht⟩ := jsonParse_obj_structure j ms hp
  subst hj
  apply coerce_congr
  · intro hc
    have : (("```json\n").toList ++ (w ++ '{' :: (mid ++ '}' :: t))
        ++ ("\n```").toList).length = 0 := by rw [hc]; rfl
    simp at this
  · simp
  · rw [stripCodeFences_fenced w mid t (all_jsWs_of_jsonWs hw) (all_jsWs_of_jsonWs ht)]
    rw [stripCodeFences_shape w mid t (all_jsWs_of_jsonWs hw) (all_jsWs_of_jsonWs ht)]

theorem jsonParse_nil : jsonParse [] = none := rfl

theorem coerceLoop_eq_firstSome (cs : List (Option Str)) :
    coerceLoop cs = firstSome (cs.map tryCand) := by
  induction cs with
  | nil => rfl
  | cons c rest ih =>
    cases c with
    | none => simpa [coerceLoop, tryCand, firstSome] using ih
    | some s =>
      by_cases hs : s = []
      · subst hs
        simpa [coerceLoop, tryCand, jsonParse_nil, firstSome] using ih
      · cases hp : jsonParse s with
        | some v => simp [coerceLoop, hs, tryCand, hp, firstSome]
        | none => simpa [coerceLoop, hs, tryCand, hp, firstSome] using ih

theorem analyzeLoop_eq (cfg : Bool) (jobs : List FileJob) :
    ∀ acc, analyzeLoop cfg jobs acc = acc ++ jobs.map (processFile cfg) := by
  induction jobs with
  | nil => intro acc; simp [analyzeLoop]
  | cons j rest ih =>
    intro acc
    rw [analyzeLoop, ih]
    simp

theorem analyze_eq_map (cfg : Bool) (jobs : List FileJob) :
    analyze cfg jobs = jobs.map (processFile cfg) := by
  rw [analyze, analyzeLoop_eq]
  simp

theorem warning_not_unparsed (s : Json) (h : isWarningShape s = true) :
    isUnparsedShape s = false := by
  unfold isWarningShape at h
  split at h
  · rfl
  · exact absurd h (by simp)

theorem storeGet_del (st : MemStore) (k : Str) :
    storeGet (storeDel st k) k = none := by
  induction st with
  | nil => rfl
  | cons e rest ih =>
    obtain ⟨k1, v1⟩ := e
    by_cases h : k1 = k
    · simpa [storeDel, h] using ih
    · simp [storeDel, h, storeGet, ih]

theorem storeGet_set_self (st : MemStore) (k : Str) (v : MemUser) :
    storeGet (storeSet st k v) k = some v := by
  induction st with
  | nil => simp [storeSet, storeGet]
  | cons e rest ih =>
    obtain ⟨k1, v1⟩ := e
    by_cases h : k1 = k
    · simp [storeSet, h, storeGet]
    · simp [storeSet, h, storeGet, ih]

theorem storeGet_set_ne (st : MemStore) (k k' : Str) (v : MemUser) (h : k' ≠ k) :
    storeGet (storeSet st k v) k' = storeGet st k' := by
  induction st with
  | nil =>
    simp only [storeSet, storeGet]
    rw [if_neg (fun hc => h hc.symm)]
  | cons e rest ih =>
    obtain ⟨k1, v1⟩ := e
    by_cases h1 : k1 = k
    · subst h1
      rw [show storeSet ((k1, v1) :: rest) k1 v = (k1, v) :: rest by simp [storeSet]]
      simp only [storeGet]
      rw [if_neg (fun hc => h hc.symm), if_neg (fun hc => h hc.symm)]
    · simp [storeSet, h1, storeGet, ih]

/-! Claim theorems. -/

/-- Claim C1, counterexample: the coercion step can return a truthy parsed
JSON value that is neither a schema-conforming SummaryObject nor a
SummaryFailure — on the reply `[1]` it returns a JSON array. -/
theorem coercion_value_not_summary_shape :
    summarizeStep (("[1]").toList) = Json.arr [Json.num (("1").toList)] ∧
    isSummaryObjectShape (summarizeStep (("[1]").toList)) = false ∧
    isUnparsedShape (summarizeStep (("[1]").toList)) = false ∧
    isWarningShape (summarizeStep (("[1]").toList)) = false :=
  ⟨by rfl, by decide, by decide, by decide⟩

/-- Claim C1 (amended): the coercion step of summarization is total — for
every reply it returns either a truthy JSON value parsed from the reply
(not necessarily a schema-conforming SummaryObject) or the SummaryFailure
`unparsed_summary`/`parsing_note` object built from the trimmed reply; it
never raises. -/
theorem coercion_step_total (reply : Str) :
    (∃ v, coerceModelJson (jsTrim reply) = some v ∧ jsTruthy v = true ∧
      summarizeStep reply = v) ∨
    summarizeStep reply = unparsedObj (jsTrim reply) := by
  simp only [summarizeStep]
  cases h : coerceModelJson (jsTrim reply) with
  | none => right; simp
  | some v =>
    cases ht : jsTruthy v with
    | true => left; exact ⟨v, rfl, ht, by simp [ht]⟩
    | false => right; simp [ht]

/-- Claim C5, counterexample: a brace-free reply can still parse — `42`
contains no braces, yet the first candidate parses, so summarization does
not return the unparsed failure. -/
theorem braceless_reply_can_parse :
    (("42").toList).all (fun c => c ≠ Char.ofNat 0x7B && c ≠ Char.ofNat 0x7D) = true ∧
    coerceModelJson (jsTrim (("42").toList)) = some (Json.num (("42").toList)) ∧
    summarizeStep (("42").toList) = Json.num (("42").toList) ∧
    isUnparsedShape (summarizeStep (("42").toList)) = false :=
  ⟨by decide, by rfl, by rfl, by decide⟩

/-- Claim C5 (amended): for every model reply none of whose coercion
candidates parses (for example the brace-free prose
`The paper discusses...`), summarization returns the SummaryFailure whose
`unparsed_summary` is the trimmed raw reply and whose `parsing_note` is the
one fixed explanatory string. -/
theorem unparsed_failover_shape (reply : Str)
    (h : coerceModelJson (jsTrim reply) = none) :
    summarizeStep reply = unparsedObj (jsTrim reply) := by
  simp only [summarizeStep]
  rw [h]

/-- Witness for the amended claim C5 at the spec's own example reply. -/
theorem unparsed_failover_shape_witness :
    coerceModelJson (jsTrim (("The paper discusses...").toList)) = none ∧
    summarizeStep (("The paper discusses...").toList)
      = unparsedObj (jsTrim (("The paper discusses...").toList)) :=
  ⟨by rfl, unparsed_failover_shape (("The paper discusses...").toList) (by rfl)⟩

/-- Claim C10: coercion accepts any truthy JSON value, not only objects —
the reply `"hello"` coerces to a JSON string, which summarization returns
as the summary without flagging any failure. -/
theorem coercion_accepts_non_object :
    coerceModelJson (("\"hello\"").toList) = some (Json.str (("hello").toList)) ∧
    isSummaryObjectShape (Json.str (("hello").toList)) = false ∧
    summarizeStep (("\"hello\"").toList) = Json.str (("hello").toList) ∧
    isUnparsedShape (summarizeStep (("\"hello\"").toList)) = false ∧
    isWarningShape (summarizeStep (("\"hello\"").toList)) = false :=
  ⟨by rfl, by decide, by rfl, by decide, by decide⟩

/-- Claim C4: for every non-empty raw reply, coercion builds exactly the
four candidates — the fence-stripped quote-normalized text, that text with
the leading `json` label stripped, the first-brace-to-last-brace substring
of each — and returns the first candidate `JSON.parse` accepts, trying them
in that fixed order (skipping an absent or empty candidate equals parsing
it, since the empty string never parses). -/
theorem coerce_four_candidates_first_parse (raw : Str) (h : raw ≠ []) :
    coerceModelJson raw =
      firstSome ([some (normalizeQuotes (stripCodeFences raw)),
        some (stripJsonLabel (normalizeQuotes (stripCodeFences raw))),
        extractJsonBlock (normalizeQuotes (stripCodeFences raw)),
        extractJsonBlock (stripJsonLabel (normalizeQuotes (stripCodeFences raw)))].map
          tryCand) := by
  unfold coerceModelJson
  rw [if_neg h]
  exact coerceLoop_eq_firstSome _

/-- Witness for claim C4 at a concrete non-empty reply. -/
theorem coerce_four_candidates_first_parse_witness :
    (("json 42").toList ≠ []) ∧
    coerceModelJson (("json 42").toList) =
      firstSome ([some (normalizeQuotes (stripCodeFences (("json 42").toList))),
        some (stripJsonLabel (normalizeQuotes (stripCodeFences (("json 42").toList)))),
        extractJsonBlock (normalizeQuotes (stripCodeFences (("json 42").toList))),
        extractJsonBlock (stripJsonLabel (normalizeQuotes
          (stripCodeFences (("json 42").toList))))].map tryCand) :=
  ⟨by decide, coerce_four_candidates_first_parse (("json 42").toList) (by decide)⟩

/-- Claim C2, counterexample: at the empty upload list the analyze route
returns a 400 error, not a (zero-length) list of per-file results. -/
theorem analyze_empty_upload_rejected :
    analyzeRoute true [] = Except.error (400,
      ("Please upload at least one PDF file.").toList) := rfl

/-- Claim C2 (amended): for every non-empty list of at most 5 uploaded
files, analyze returns exactly one AnalysisResult per input file, at the
same position, each computed from its own file alone — so one file's
failure can neither abort nor alter the processing of the others. -/
theorem analyze_per_file_order_isolated (cfg : Bool) (jobs : List FileJob)
    (hne : jobs ≠ []) (hcap : jobs.length ≤ 5) :
    analyzeRoute cfg jobs = Except.ok (analyze cfg jobs) ∧
    (analyze cfg jobs).length = jobs.length ∧
    ∀ i : Nat, (analyze cfg jobs)[i]? = jobs[i]?.map (processFile cfg) := by
  refine ⟨?_, ?_, ?_⟩
  · cases jobs with
    | nil => exact absurd rfl hne
    | cons j rest => rfl
  · rw [analyze_eq_map]
    simp
  · intro i
    rw [analyze_eq_map]
    exact List.getElem?_map ..

/-- Witness for the amended claim C2 at the spec's batch-isolation example:
three files, the second one not a valid PDF. -/
theorem analyze_per_file_order_isolated_witness :
    (([⟨("id1").toList, ("a.pdf").toList,
        Except.ok ((("text a").toList), some 1), Except.ok (("\"sa\"").toList)⟩,
      ⟨("id2").toList, ("b.pdf").toList,
        Except.error (("Invalid PDF structure").toList), Except.ok (("\"sb\"").toList)⟩,
      ⟨("id3").toList, ("c.pdf").toList,
        Except.ok ((("text c").toList), some 3), Except.ok (("\"sc\"").toList)⟩]
      : List FileJob) ≠ []) ∧
    (([⟨("id1").toList, ("a.pdf").toList,
        Except.ok ((("text a").toList), some 1), Except.ok (("\"sa\"").toList)⟩,
      ⟨("id2").toList, ("b.pdf").toList,
        Except.error (("Invalid PDF structure").toList), Except.ok (("\"sb\"").toList)⟩,
      ⟨("id3").toList, ("c.pdf").toList,
        Except.ok ((("text c").toList), some 3), Except.ok (("\"sc\"").toList)⟩]
      : List FileJob).length ≤ 5) ∧
    (analyzeRoute true [⟨("id1").toList, ("a.pdf").toList,
        Except.ok ((("text a").toList), some 1), Except.ok (("\"sa\"").toList)⟩,
      ⟨("id2").toList, ("b.pdf").toList,
        Except.error (("Invalid PDF structure").toList), Except.ok (("\"sb\"").toList)⟩,
      ⟨("id3").toList, ("c.pdf").toList,
        Except.ok ((("text c").toList), some 3), Except.ok (("\"sc\"").toList)⟩]
      = Except.ok (analyze true [⟨("id1").toList, ("a.pdf").toList,
        Except.ok ((("text a").toList), some 1), Except.ok (("\"sa\"").toList)⟩,
      ⟨("id2").toList, ("b.pdf").toList,
        Except.error (("Invalid PDF structure").toList), Except.ok (("\"sb\"").toList)⟩,
      ⟨("id3").toList, ("c.pdf").toList,
        Except.ok ((("text c").toList), some 3), Except.ok (("\"sc\"").toList)⟩]) ∧
    (analyze true [⟨("id1").toList, ("a.pdf").toList,
        Except.ok ((("text a").toList), some 1), Except.ok (("\"sa\"").toList)⟩,
      ⟨("id2").toList, ("b.pdf").toList,
        Except.error (("Invalid PDF structure").toList), Except.ok (("\"sb\"").toList)⟩,
      ⟨("id3").toList, ("c.pdf").toList,
        Except.ok ((("text c").toList), some 3), Except.ok (("\"sc\"").toList)⟩]).length
      = ([⟨("id1").toList, ("a.pdf").toList,
        Except.ok ((("text a").toList), some 1), Except.ok (("\"sa\"").toList)⟩,
      ⟨("id2").toList, ("b.pdf").toList,
        Except.error (("Invalid PDF structure").toList), Except.ok (("\"sb\"").toList)⟩,
      ⟨("id3").toList, ("c.pdf").toList,
        Except.ok ((("text c").toList), some 3), Except.ok (("\"sc\"").toList)⟩]
        : List FileJob).length ∧
    ∀ i : Nat, (analyze true [⟨("id1").toList, ("a.pdf").toList,
        Except.ok ((("text a").toList), some 1), Except.ok (("\"sa\"").toList)⟩,
      ⟨("id2").toList, ("b.pdf").toList,
        Except.error (("Invalid PDF structure").toList), Except.ok (("\"sb\"").toList)⟩,
      ⟨("id3").toList, ("c.pdf").toList,
        Except.ok ((("text c").toList), some 3), Except.ok (("\"sc\"").toList)⟩])[i]?
      = ([⟨("id1").toList, ("a.pdf").toList,
        Except.ok ((("text a").toList), some 1), Except.ok (("\"sa\"").toList)⟩,
      ⟨("id2").toList, ("b.pdf").toList,
        Except.error (("Invalid PDF structure").toList), Except.ok (("\"sb\"").toList)⟩,
      ⟨("id3").toList, ("c.pdf").toList,
        Except.ok ((("text c").toList), some 3), Except.ok (("\"sc\"").toList)⟩]
        : List FileJob)[i]?.map (processFile true)) :=
  ⟨by simp, by simp, analyze_per_file_order_isolated true _ (by simp) (by simp)⟩

/-- A summary value is in exactly one of the three summary states. -/
theorem summary_state_unique (s : Json) :
    List.count true [isWarningShape s, isUnparsedShape s,
      !isWarningShape s && !isUnparsedShape s] = 1 := by
  cases hw : isWarningShape s with
  | true => rw [warning_not_unparsed s hw]; rfl
  | false =>
    cases hu : isUnparsedShape s with
    | true => rfl
    | false => rfl

/-- Claim C3, counterexample: a successfully analyzed file yields a result
whose `status` field is absent — neither `"ok"` nor `"failed"`. -/
theorem analysis_success_status_not_ok :
    (analyze true [⟨("id1").toList, ("a.pdf").toList,
        Except.ok ((("paper text").toList), some 2),
        Except.ok (("\"s\"").toList)⟩]).map AnalysisResult.status = [none] := by rfl

/-- Branch equation: a failed extraction yields the failed entry. -/
theorem processFile_extract_error (cfg : Bool) (j : FileJob) (msg : Str)
    (h : j.extract = Except.error msg) :
    processFile cfg j = failedResult j.id j.originalname
      (if msg = [] then ("Failed to parse PDF").toList else msg) := by
  unfold processFile
  rw [h]

/-- Branch equation: empty extracted text yields the failed entry. -/
theorem processFile_empty_text (cfg : Bool) (j : FileJob) (text : Str)
    (pages : Option Nat) (h : j.extract = Except.ok (text, pages))
    (ht : jsTrim text = []) :
    processFile cfg j = failedResult j.id j.originalname
      (("No textual content detected in PDF.").toList) := by
  unfold processFile
  rw [h]
  dsimp only
  rw [if_pos ht]

/-- Branch equation: a summarization transport error yields the failed
entry. -/
theorem processFile_sum_error (cfg : Bool) (j : FileJob) (text : Str)
    (pages : Option Nat) (e : Str) (h : j.extract = Except.ok (text, pages))
    (ht : jsTrim text ≠ []) (hs : summarizeForReview cfg j.reply = Except.error e) :
    processFile cfg j = failedResult j.id j.originalname
      (if e = [] then ("Failed to parse PDF").toList else e) := by
  unfold processFile
  rw [h]
  dsimp only
  rw [if_neg ht, hs]

/-- Branch equation: a successful pipeline yields the success entry. -/
theorem processFile_ok (cfg : Bool) (j : FileJob) (text : Str)
    (pages : Option Nat) (s : Json) (h : j.extract = Except.ok (text, pages))
    (ht : jsTrim text ≠ []) (hs : summarizeForReview cfg j.reply = Except.ok s) :
    processFile cfg j =
      { id := j.id, originalName := j.originalname, status := none,
        error := none, pages := pages, textContent := some (jsTrim text),
        textFileName := some (sanitizeFileName (pathBaseName j.originalname)
          ++ (".txt").toList),
        characters := some (jsTrim text).length, summary := some s } := by
  unfold processFile
  rw [h]
  dsimp only
  rw [if_neg ht, hs]

/-- Claim C3 (amended): every AnalysisResult built by analyze has `status`
equal to `"failed"` or absent (never `"ok"`), carries an error string
exactly when `status = "failed"`, carries a summary exactly when it
succeeded, and is in exactly one of the four states extraction-failed,
warning-summary, unparsed-summary, schema-summary. -/
theorem analysis_result_states (cfg : Bool) (jobs : List FileJob)
    (r : AnalysisResult) (hr : r ∈ analyze cfg jobs) :
    (r.status = some (("failed").toList) ∨ r.status = none) ∧
    (r.error.isSome ↔ r.status = some (("failed").toList)) ∧
    (r.summary.isSome ↔ r.status = none) ∧
    List.count true [stFailed r, stWarning r, stUnparsed r, stSchema r] = 1 := by
  rw [analyze_eq_map] at hr
  obtain ⟨j, hj, rfl⟩ := List.mem_map.mp hr
  cases hext : j.extract with
  | error msg =>
    rw [processFile_extract_error cfg j msg hext]
    refine ⟨Or.inl rfl, by simp [failedResult], by simp [failedResult], ?_⟩
    simp [failedResult, stFailed, stWarning, stUnparsed, stSchema]
  | ok tp =>
    obtain ⟨text, pages⟩ := tp
    by_cases htr : jsTrim text = []
    · rw [processFile_empty_text cfg j text pages hext htr]
      refine ⟨Or.inl rfl, by simp [failedResult], by simp [failedResult], ?_⟩
      simp [failedResult, stFailed, stWarning, stUnparsed, stSchema]
    · cases hsum : summarizeForReview cfg j.reply with
      | error e =>
        rw [processFile_sum_error cfg j text pages e hext htr hsum]
        refine ⟨Or.inl rfl, by simp [failedResult], by simp [failedResult], ?_⟩
        simp [failedResult, stFailed, stWarning, stUnparsed, stSchema]
      | ok s =>
        rw [processFile_ok cfg j text pages s hext htr hsum]
        refine ⟨Or.inr rfl, by simp, by simp, ?_⟩
        have hu := summary_state_unique s
        simpa [stFailed, stWarning, stUnparsed, stSchema] using hu

/-- Witness for the amended claim C3 at a concrete successful analysis. -/
theorem analysis_result_states_witness :
    (processFile true ⟨("id1").toList, ("a.pdf").toList,
        Except.ok ((("paper text").toList), some 2), Except.ok (("\"s\"").toList)⟩
      ∈ analyze true [⟨("id1").toList, ("a.pdf").toList,
        Except.ok ((("paper text").toList), some 2), Except.ok (("\"s\"").toList)⟩]) ∧
    (((processFile true ⟨("id1").toList, ("a.pdf").toList,
        Except.ok ((("paper text").toList), some 2),
        Except.ok (("\"s\"").toList)⟩).status = some (("failed").toList) ∨
      (processFile true ⟨("id1").toList, ("a.pdf").toList,
        Except.ok ((("paper text").toList), some 2),
        Except.ok (("\"s\"").toList)⟩).status = none) ∧
    ((processFile true ⟨("id1").toList, ("a.pdf").toList,
        Except.ok ((("paper text").toList), some 2),
        Except.ok (("\"s\"").toList)⟩).error.isSome ↔
      (processFile true ⟨("id1").toList, ("a.pdf").toList,
        Except.ok ((("paper text").toList), some 2),
        Except.ok (("\"s\"").toList)⟩).status = some (("failed").toList)) ∧
    ((processFile true ⟨("id1").toList, ("a.pdf").toList,
        Except.ok ((("paper text").toList), some 2),
        Except.ok (("\"s\"").toList)⟩).summary.isSome ↔
      (processFile true ⟨("id1").toList, ("a.pdf").toList,
        Except.ok ((("paper text").toList), some 2),
        Except.ok (("\"s\"").toList)⟩).status = none) ∧
    List.count true [stFailed (processFile true ⟨("id1").toList, ("a.pdf").toList,
        Except.ok ((("paper text").toList), some 2), Except.ok (("\"s\"").toList)⟩),
      stWarning (processFile true ⟨("id1").toList, ("a.pdf").toList,
        Except.ok ((("paper text").toList), some 2), Except.ok (("\"s\"").toList)⟩),
      stUnparsed (processFile true ⟨("id1").toList, ("a.pdf").toList,
        Except.ok ((("paper text").toList), some 2), Except.ok (("\"s\"").toList)⟩),
      stSchema (processFile true ⟨("id1").toList, ("a.pdf").toList,
        Except.ok ((("paper text").toList), some 2),
        Except.ok (("\"s\"").toList)⟩)] = 1) :=
  ⟨by simp [analyze_eq_map],
    analysis_result_states true [⟨("id1").toList, ("a.pdf").toList,
      Except.ok ((("paper text").toList), some 2), Except.ok (("\"s\"").toList)⟩]
      _ (by simp [analyze_eq_map])⟩

/-- Claim C7, counterexample: in the in-memory token variant, logout leaves
the token store untouched, so the token still authenticates afterwards. -/
theorem mem_logout_keeps_token :
    requireAuthMem (logoutMem [(("tok1").toList,
        ⟨("u1").toList, ("N").toList, ("e@x.com").toList, none⟩)])
      (some (("Bearer tok1").toList))
      = some ⟨("u1").toList, ("N").toList, ("e@x.com").toList, none⟩ := by rfl

/-- Claim C7 (amended): in the session-backed variant, logout destroys the
caller's session unconditionally — after logout the previously valid
session id no longer authenticates; in the in-memory token variant logout
is a no-op and the token stays valid. -/
theorem cookie_logout_destroys_session (st : SessStore) (sid : Str) (u : MemUser)
    (_h : requireAuthCookie st (some sid) = some u) :
    requireAuthCookie (logoutCookie st sid) (some sid) = none := by
  unfold requireAuthCookie logoutCookie
  exact storeGet_del st sid

/-- Witness for the amended claim C7 at a concrete session store. -/
theorem cookie_logout_destroys_session_witness :
    requireAuthCookie [(("sid1").toList,
        ⟨("u1").toList, ("N").toList, ("e@x.com").toList, none⟩)]
      (some (("sid1").toList))
      = some ⟨("u1").toList, ("N").toList, ("e@x.com").toList, none⟩ ∧
    requireAuthCookie (logoutCookie [(("sid1").toList,
        ⟨("u1").toList, ("N").toList, ("e@x.com").toList, none⟩)] (("sid1").toList))
      (some (("sid1").toList)) = none :=
  ⟨by rfl, cookie_logout_destroys_session _ _
    ⟨("u1").toList, ("N").toList, ("e@x.com").toList, none⟩ (by rfl)⟩

/-- Claim C8: every failing login attempt — unknown email, or known email
with a mismatching password hash — receives the one fixed 401 response, in
both the session-backed and the in-memory variant, so the response does
not reveal whether the email exists. -/
theorem login_failure_uniform_response (hash : Str → Str) (db : DbStore)
    (e1 p1 : Str) (tok : Str) (st : MemStore) (e2 p2 : Str)
    (h1 : dbLoginFails hash db e1 p1 = true)
    (h2 : memLoginFails hash st e2 p2 = true) :
    loginDb hash db e1 p1 = AuthResp.err 401 invalidLoginMsg ∧
    loginMem hash tok st e2 p2 = (st, AuthResp.err 401 invalidLoginMsg) := by
  constructor
  · simp only [loginDb]
    cases hu : getUserByEmail db (normalizeEmail e1) with
    | none => rfl
    | some u =>
      unfold dbLoginFails at h1
      rw [hu] at h1
      dsimp only at h1
      simp only [Bool.not_eq_true', decide_eq_false_iff_not] at h1
      dsimp only
      rw [if_neg h1]
  · simp only [loginMem]
    cases hu : storeGet st (normalizeEmail e2) with
    | none => rfl
    | some u =>
      unfold memLoginFails at h2
      rw [hu] at h2
      dsimp only at h2
      simp only [Bool.not_eq_true', decide_eq_false_iff_not] at h2
      dsimp only
      rw [if_neg h2]

/-- Witness for claim C8: an unknown email on the database side and a wrong
password against a registered user on the in-memory side. -/
theorem login_failure_uniform_response_witness :
    dbLoginFails (fun s => s) [] (("ghost@x.com").toList) (("pw123456").toList) = true ∧
    memLoginFails (fun s => s) [(("e@x.com").toList,
        ⟨("u1").toList, ("N").toList, ("e@x.com").toList,
          some (("pw123456").toList)⟩)]
      (("e@x.com").toList) (("wrong1").toList) = true ∧
    (loginDb (fun s => s) [] (("ghost@x.com").toList) (("pw123456").toList)
        = AuthResp.err 401 invalidLoginMsg ∧
      loginMem (fun s => s) (("t0k").toList) [(("e@x.com").toList,
          ⟨("u1").toList, ("N").toList, ("e@x.com").toList,
            some (("pw123456").toList)⟩)]
        (("e@x.com").toList) (("wrong1").toList)
        = ([(("e@x.com").toList,
            ⟨("u1").toList, ("N").toList, ("e@x.com").toList,
              some (("pw123456").toList)⟩)],
          AuthResp.err 401 invalidLoginMsg)) :=
  ⟨by rfl, by rfl, login_failure_uniform_response (fun s => s) [] _ _ _ _ _ _
    (by rfl) (by rfl)⟩

/-- Claim C9: in the in-memory variant, user records and session tokens
share one `Map`, so after a signup the normalized email itself works as a
bearer token — `requireAuth` authenticates it and attaches the full stored
record, password hash included, as the request identity. -/
theorem email_token_authenticates (hash : Str → Str) (uuid token : Str)
    (st : MemStore) (name email password : Str)
    (hemail : email ≠ []) (hpw : 6 ≤ password.length)
    (hfresh : storeGet st (normalizeEmail email) = none)
    (htok : token ≠ normalizeEmail email) :
    requireAuthMem (signupMem hash uuid token st name email password).1
        (some ((("Bearer ").toList) ++ normalizeEmail email))
      = some ⟨uuid, (if jsTrim name = [] then ("Guest").toList else jsTrim name),
          normalizeEmail email, some (hash password)⟩ := by
  have hstore : (signupMem hash uuid token st name email password).1
      = storeSet (storeSet st (normalizeEmail email)
          ⟨uuid, (if jsTrim name = [] then ("Guest").toList else jsTrim name),
            normalizeEmail email, some (hash password)⟩) token
          ⟨uuid, (if jsTrim name = [] then ("Guest").toList else jsTrim name),
            normalizeEmail email, none⟩ := by
    simp only [signupMem]
    rw [if_neg (by
      simp only [Bool.or_eq_true, decide_eq_true_eq, not_or]
      refine ⟨⟨hemail, ?_⟩, ?_⟩
      · intro hc
        rw [hc] at hpw
        simp at hpw
      · simp only [not_lt]
        exact hpw)]
    rw [if_neg (by rw [hfresh]; simp)]
  rw [hstore]
  unfold requireAuthMem
  dsimp only
  have htake : List.take 7 ((("Bearer ").toList) ++ normalizeEmail email)
      = ("Bearer ").toList := by
    rw [show (7 : Nat) = (("Bearer ").toList).length from rfl]
    exact List.take_left ..
  have hdrop : List.drop 7 ((("Bearer ").toList) ++ normalizeEmail email)
      = normalizeEmail email := by
    rw [show (7 : Nat) = (("Bearer ").toList).length from rfl]
    exact List.drop_left ..
  rw [if_pos htake, hdrop]
  rw [storeGet_set_ne _ _ _ _ (fun hc => htok hc.symm)]
  exact storeGet_set_self ..

/-- Witness for claim C9 at a concrete signup. -/
theorem email_token_authenticates_witness :
    ((("Ann@X.com").toList) ≠ ([] : Str)) ∧
    6 ≤ (("pw123456").toList).length ∧
    storeGet [] (normalizeEmail (("Ann@X.com").toList)) = none ∧
    ((("t0k").toList) ≠ normalizeEmail (("Ann@X.com").toList)) ∧
    requireAuthMem (signupMem (fun s => s) (("uid1").toList) (("t0k").toList) []
        (("Ann").toList) (("Ann@X.com").toList) (("pw123456").toList)).1
        (some ((("Bearer ").toList) ++ normalizeEmail (("Ann@X.com").toList)))
      = some ⟨("uid1").toList,
          (if jsTrim (("Ann").toList) = [] then ("Guest").toList
            else jsTrim (("Ann").toList)),
          normalizeEmail (("Ann@X.com").toList),
          some ((fun s => s) (("pw123456").toList))⟩ :=
  ⟨by decide, by decide, by rfl, by decide,
    email_token_authenticates (fun s => s) (("uid1").toList) (("t0k").toList) []
      (("Ann").toList) (("Ann@X.com").toList) (("pw123456").toList)
      (by decide) (by decide) (by rfl) (by decide)⟩

/-- Witness for claim C6 at the spec's round-trip SummaryObject text. -/
theorem fenced_reply_coerces_identically_witness :
    jsonParse (("\x7b\"concise_summary\":\"x\",\"key_points\":[\"a\"],\"novelty\":\"n\",\"limitations\":\"l\",\"next_questions\":[\"q\"]\x7d").toList)
      = some (Json.obj [((("concise_summary").toList), Json.str (("x").toList)),
          ((("key_points").toList), Json.arr [Json.str (("a").toList)]),
          ((("novelty").toList), Json.str (("n").toList)),
          ((("limitations").toList), Json.str (("l").toList)),
          ((("next_questions").toList), Json.arr [Json.str (("q").toList)])]) ∧
    isSummaryObjectShape (Json.obj [((("concise_summary").toList), Json.str (("x").toList)),
          ((("key_points").toList), Json.arr [Json.str (("a").toList)]),
          ((("novelty").toList), Json.str (("n").toList)),
          ((("limitations").toList), Json.str (("l").toList)),
          ((("next_questions").toList), Json.arr [Json.str (("q").toList)])]) = true ∧
    coerceModelJson (("```json\n").toList
        ++ (("\x7b\"concise_summary\":\"x\",\"key_points\":[\"a\"],\"novelty\":\"n\",\"limitations\":\"l\",\"next_questions\":[\"q\"]\x7d").toList)
        ++ ("\n```").toList)
      = coerceModelJson (("\x7b\"concise_summary\":\"x\",\"key_points\":[\"a\"],\"novelty\":\"n\",\"limitations\":\"l\",\"next_questions\":[\"q\"]\x7d").toList) :=
  ⟨by rfl, by rfl,
    fenced_reply_coerces_identically
      (("\x7b\"concise_summary\":\"x\",\"key_points\":[\"a\"],\"novelty\":\"n\",\"limitations\":\"l\",\"next_questions\":[\"q\"]\x7d").toList)
      (Json.obj [((("concise_summary").toList), Json.str (("x").toList)),
        ((("key_points").toList), Json.arr [Json.str (("a").toList)]),
        ((("novelty").toList), Json.str (("n").toList)),
        ((("limitations").toList), Json.str (("l").toList)),
        ((("next_questions").toList), Json.arr [Json.str (("q").toList)])])
      (by rfl) (by rfl)⟩
